import Mathlib

/-!
Verification of the password-manager core of this repository
(`src/password/index.js`): the `CryptoManager` encryption wrapper and the
`PasswordManager` vault store.

Modelling conventions (shallow embedding):
* Byte sequences are `List Nat`.  Randomness (the fresh salt and nonce drawn
  by `CryptoManager.encrypt`) and clock reads (`Date.now()`,
  `new Date().toISOString()`) are passed as explicit parameters.
* The platform primitives consumed by the code (`window.crypto.subtle`
  PBKDF2 / AES-GCM, `JSON.stringify` / `JSON.parse`, `btoa` / `atob`) are not
  code of this repository; they are modelled idealized, exactly as the spec
  describes their contracts: PBKDF2 key derivation is an injective function
  of (passphrase, salt); AES-GCM is an AEAD whose tag binds key, nonce and
  plaintext, with forgery impossible; base64 transport is a bijection, so
  blobs are represented by the decoded `salt ++ nonce ++ ciphertext` bytes;
  JSON payloads are represented by their serialized byte sequences.
* The AEAD authentication tag is modelled as two copies of an injective
  MAC value over (key, nonce, plaintext).  A real 16-byte GCM tag cannot be
  redirected to another key/plaintext by changing a single byte of the blob;
  duplicating the injective MAC realizes exactly that unforgeability
  assumption in a computable model.
-/

/-- Injective encoding of a byte list into a natural number, used to build
the idealized MAC value. -/
def listEncode : List Nat → Nat
  | [] => 0
  | a :: l => Nat.pair a (listEncode l) + 1

theorem listEncode_injective : ∀ {l1 l2 : List Nat}, listEncode l1 = listEncode l2 → l1 = l2
  | [], [], _ => rfl
  | [], _ :: _, h => by simp [listEncode] at h
  | _ :: _, [], h => by simp [listEncode] at h
  | a :: l1, b :: l2, h => by
    simp only [listEncode, Nat.add_right_cancel_iff, Nat.pair_eq_pair] at h
    obtain ⟨h1, h2⟩ := h
    rw [h1, listEncode_injective h2]

/-- Model of `CryptoManager.deriveKey` (PBKDF2-SHA256, 100000 iterations):
an idealized key-stretching function, injective in (passphrase, salt).
The derived key is represented by the pair itself. -/
def deriveKey (password salt : List Nat) : List Nat × List Nat :=
  (password, salt)

/-- Idealized AES-GCM authentication tag: an injective MAC over
(key, nonce, plaintext). -/
def gcmTag (key : List Nat × List Nat) (iv pt : List Nat) : Nat :=
  Nat.pair (listEncode key.1)
    (Nat.pair (listEncode key.2) (Nat.pair (listEncode iv) (listEncode pt)))

theorem gcmTag_inj {k1 k2 : List Nat × List Nat} {iv1 iv2 pt1 pt2 : List Nat}
    (h : gcmTag k1 iv1 pt1 = gcmTag k2 iv2 pt2) :
    k1 = k2 ∧ iv1 = iv2 ∧ pt1 = pt2 := by
  simp only [gcmTag, Nat.pair_eq_pair] at h
  obtain ⟨h1, h2, h3, h4⟩ := h
  exact ⟨Prod.ext (listEncode_injective h1) (listEncode_injective h2),
    listEncode_injective h3, listEncode_injective h4⟩

/-- Idealized `window.crypto.subtle.encrypt` with AES-GCM: the ciphertext is
the plaintext followed by the authentication tag (two copies of the
injective MAC, see the header comment). -/
def aesGcmEncrypt (key : List Nat × List Nat) (iv pt : List Nat) : List Nat :=
  pt ++ [gcmTag key iv pt, gcmTag key iv pt]

/-- Idealized `window.crypto.subtle.decrypt` with AES-GCM: split off the
trailing tag, recompute it from the candidate plaintext and the supplied
key/nonce, and fail unless it matches. -/
def aesGcmDecrypt (key : List Nat × List Nat) (iv ct : List Nat) : Option (List Nat) :=
  let body := ct.take (ct.length - 2)
  if ct = body ++ [gcmTag key iv body, gcmTag key iv body] then some body else none

theorem aesGcmDecrypt_pair (key : List Nat × List Nat) (iv pt : List Nat) (x y : Nat) :
    aesGcmDecrypt key iv (pt ++ [x, y]) =
      if x = gcmTag key iv pt ∧ y = gcmTag key iv pt then some pt else none := by
  have hlen : (pt ++ [x, y]).length - 2 = pt.length := by simp
  have hbody : (pt ++ [x, y]).take ((pt ++ [x, y]).length - 2) = pt := by
    rw [hlen]; exact List.take_left pt [x, y]
  unfold aesGcmDecrypt
  simp only [hbody, List.append_right_inj]
  by_cases hx : x = gcmTag key iv pt ∧ y = gcmTag key iv pt
  · rw [if_pos (by simp [hx.1, hx.2]), if_pos hx]
  · rw [if_neg (by simp only [List.cons.injEq, and_true]; exact hx), if_neg hx]

theorem aesGcmDecrypt_encrypt (key : List Nat × List Nat) (iv pt : List Nat) :
    aesGcmDecrypt key iv (aesGcmEncrypt key iv pt) = some pt := by
  rw [aesGcmEncrypt, aesGcmDecrypt_pair, if_pos ⟨rfl, rfl⟩]

/-- Error raised by `CryptoManager.decrypt` when AEAD tag verification (or
parsing of the recovered plaintext) fails: the code throws
`Error("Decryption failed - incorrect password")` (text given here with
double quotes). -/
inductive CryptoError where
  | decryptionFailed
deriving DecidableEq

/-- Model of `CryptoManager.encrypt(data, password)`: derive the key from
the passphrase and the random 16-byte salt, AEAD-encrypt the serialized
payload under the random 12-byte nonce, and return the combined
`salt ++ iv ++ ciphertext` blob (the base64 transport encoding is a
bijection and is left implicit). -/
def encryptBytes (data password salt iv : List Nat) : List Nat :=
  salt ++ iv ++ aesGcmEncrypt (deriveKey password salt) iv data

/-- Model of `CryptoManager.decrypt(encryptedData, password)`: slice the
blob at fixed offsets (16-byte salt, 12-byte nonce, remainder ciphertext),
re-derive the key and run AEAD decryption; any verification failure is
reported as `decryptionFailed`. -/
def decryptBytes (blob password : List Nat) : Except CryptoError (List Nat) :=
  let salt := blob.take 16
  let iv := (blob.drop 16).take 12
  let encrypted := blob.drop 28
  match aesGcmDecrypt (deriveKey password salt) iv encrypted with
  | some pt => .ok pt
  | none => .error .decryptionFailed

theorem decryptBytes_encryptBytes (data password salt iv : List Nat)
    (hs : salt.length = 16) (hi : iv.length = 12) :
    decryptBytes (encryptBytes data password salt iv) password = .ok data := by
  have h16 : (salt ++ (iv ++ aesGcmEncrypt (deriveKey password salt) iv data)).take 16 = salt :=
    List.take_left' hs
  have hdrop : (salt ++ (iv ++ aesGcmEncrypt (deriveKey password salt) iv data)).drop 16 =
      iv ++ aesGcmEncrypt (deriveKey password salt) iv data :=
    List.drop_left' hs
  unfold encryptBytes decryptBytes
  rw [List.append_assoc] at *
  simp only [h16, hdrop]
  have h12 : (iv ++ aesGcmEncrypt (deriveKey password salt) iv data).take 12 = iv :=
    List.take_left' hi
  have h28 : (salt ++ (iv ++ aesGcmEncrypt (deriveKey password salt) iv data)).drop 28 =
      aesGcmEncrypt (deriveKey password salt) iv data := by
    have : (28 : Nat) = 16 + 12 := by norm_num
    rw [this, ← List.drop_drop, hdrop, List.drop_left' hi]
  simp only [h12, h28, aesGcmDecrypt_encrypt]

/-- Model of a credential record as created by `PasswordManager.addPassword`:
nine string fields (`id`, `name`, `website`, `username`, `password`,
`category`, `notes`, `createdDate`, `lastModified`). -/
structure PasswordRecord where
  id : String
  name : String
  website : String
  username : String
  password : String
  category : String
  notes : String
  createdDate : String
  lastModified : String
deriving DecidableEq

/-- Shape of the decrypted persisted payload as consumed by
`PasswordManager.loadData`: a JSON object whose `passwords` and
`categories` fields may each be missing (JavaScript `undefined`/`null`,
modelled as `none`). `saveData` always writes both fields. -/
structure StoredData where
  passwords : Option (List PasswordRecord)
  categories : Option (List String)
deriving DecidableEq

/-- UTF encoding of a string into bytes (`TextEncoder.encode`), modelled as
the list of character codes. -/
def strToBytes (s : String) : List Nat := s.data.map Char.toNat

/-- Length-prefixed framing used by the model of JSON serialization. -/
def encList (l : List Nat) : List Nat := l.length :: l

def decList : List Nat → Option (List Nat × List Nat)
  | [] => none
  | n :: rest => if n ≤ rest.length then some (rest.take n, rest.drop n) else none

theorem decList_encList (l rest : List Nat) : decList (encList l ++ rest) = some (l, rest) := by
  simp only [encList, List.cons_append, decList]
  rw [if_pos (by simp), List.take_left' rfl, List.drop_left' rfl]

def encStrB (s : String) : List Nat := encList (strToBytes s)

def decStrB (l : List Nat) : Option (String × List Nat) :=
  match decList l with
  | none => none
  | some (bs, rest) => some (⟨bs.map Char.ofNat⟩, rest)

theorem decStrB_encStrB (s : String) (rest : List Nat) :
    decStrB (encStrB s ++ rest) = some (s, rest) := by
  simp [decStrB, encStrB, decList_encList, strToBytes, List.map_map, Function.comp_def]

/-- Model of JSON serialization of one credential record. -/
def encRecord (p : PasswordRecord) : List Nat :=
  encStrB p.id ++ encStrB p.name ++ encStrB p.website ++ encStrB p.username ++
    encStrB p.password ++ encStrB p.category ++ encStrB p.notes ++
    encStrB p.createdDate ++ encStrB p.lastModified

def decRecord (l : List Nat) : Option (PasswordRecord × List Nat) := do
  let (i, r1) ← decStrB l
  let (n, r2) ← decStrB r1
  let (w, r3) ← decStrB r2
  let (u, r4) ← decStrB r3
  let (pw, r5) ← decStrB r4
  let (c, r6) ← decStrB r5
  let (no, r7) ← decStrB r6
  let (cd, r8) ← decStrB r7
  let (lm, r9) ← decStrB r8
  pure (⟨i, n, w, u, pw, c, no, cd, lm⟩, r9)

theorem decRecord_encRecord (p : PasswordRecord) (rest : List Nat) :
    decRecord (encRecord p ++ rest) = some (p, rest) := by
  simp [decRecord, encRecord, List.append_assoc, decStrB_encStrB]

def encRecordSeq : List PasswordRecord → List Nat
  | [] => []
  | p :: ps => encRecord p ++ encRecordSeq ps

def decRecordSeq : Nat → List Nat → Option (List PasswordRecord × List Nat)
  | 0, l => some ([], l)
  | n + 1, l => do
    let (p, r) ← decRecord l
    let (ps, r') ← decRecordSeq n r
    pure (p :: ps, r')

theorem decRecordSeq_encRecordSeq (ps : List PasswordRecord) (rest : List Nat) :
    decRecordSeq ps.length (encRecordSeq ps ++ rest) = some (ps, rest) := by
  induction ps generalizing rest with
  | nil => rfl
  | cons p ps ih =>
    simp [encRecordSeq, decRecordSeq, List.append_assoc, decRecord_encRecord, ih]

def encStrSeq : List String → List Nat
  | [] => []
  | s :: ss => encStrB s ++ encStrSeq ss

def decStrSeq : Nat → List Nat → Option (List String × List Nat)
  | 0, l => some ([], l)
  | n + 1, l => do
    let (s, r) ← decStrB l
    let (ss, r') ← decStrSeq n r
    pure (s :: ss, r')

theorem decStrSeq_encStrSeq (ss : List String) (rest : List Nat) :
    decStrSeq ss.length (encStrSeq ss ++ rest) = some (ss, rest) := by
  induction ss generalizing rest with
  | nil => rfl
  | cons s ss ih =>
    simp [encStrSeq, decStrSeq, List.append_assoc, decStrB_encStrB, ih]

def encOptRecords : Option (List PasswordRecord) → List Nat
  | none => [0]
  | some ps => 1 :: ps.length :: encRecordSeq ps

def decOptRecords : List Nat → Option (Option (List PasswordRecord) × List Nat)
  | 0 :: rest => some (none, rest)
  | 1 :: n :: rest => (decRecordSeq n rest).map fun x => (some x.1, x.2)
  | _ => none

theorem decOptRecords_encOptRecords (o : Option (List PasswordRecord)) (rest : List Nat) :
    decOptRecords (encOptRecords o ++ rest) = some (o, rest) := by
  cases o with
  | none => rfl
  | some ps => simp [encOptRecords, decOptRecords, decRecordSeq_encRecordSeq]

def encOptStrs : Option (List String) → List Nat
  | none => [0]
  | some ss => 1 :: ss.length :: encStrSeq ss

def decOptStrs : List Nat → Option (Option (List String) × List Nat)
  | 0 :: rest => some (none, rest)
  | 1 :: n :: rest => (decStrSeq n rest).map fun x => (some x.1, x.2)
  | _ => none

theorem decOptStrs_encOptStrs (o : Option (List String)) (rest : List Nat) :
    decOptStrs (encOptStrs o ++ rest) = some (o, rest) := by
  cases o with
  | none => rfl
  | some ss => simp [encOptStrs, decOptStrs, decStrSeq_encStrSeq]

/-- Model of `JSON.stringify` on the persisted payload object: an injective
serialization of the `{passwords, categories}` object into bytes. -/
def encodeStored (d : StoredData) : List Nat :=
  encOptRecords d.passwords ++ encOptStrs d.categories

/-- Model of `JSON.parse` on decrypted payload bytes. -/
def parseStored (l : List Nat) : Option StoredData := do
  let (ps, r1) ← decOptRecords l
  let (cs, r2) ← decOptStrs r1
  if r2 = [] then pure ⟨ps, cs⟩ else none

theorem parseStored_encodeStored (d : StoredData) : parseStored (encodeStored d) = some d := by
  have h1 := decOptRecords_encOptRecords d.passwords (encOptStrs d.categories)
  have h2 := decOptStrs_encOptStrs d.categories []
  rw [List.append_nil] at h2
  simp [parseStored, encodeStored, h1, h2]

/-- Model of the full `CryptoManager.decrypt` as used on the persisted vault
payload: AEAD decryption followed by `JSON.parse`; the code wraps both in
one try/catch, so a parse failure is also reported as `decryptionFailed`. -/
def decryptStored (blob password : List Nat) : Except CryptoError StoredData :=
  match decryptBytes blob password with
  | .error e => .error e
  | .ok pt =>
    match parseStored pt with
    | some d => .ok d
    | none => .error .decryptionFailed

theorem decryptStored_encryptBytes (d : StoredData) (password salt iv : List Nat)
    (hs : salt.length = 16) (hi : iv.length = 12) :
    decryptStored (encryptBytes (encodeStored d) password salt iv) password = .ok d := by
  rw [decryptStored, decryptBytes_encryptBytes _ _ _ _ hs hi]
  simp [parseStored_encodeStored]

/-- Idealized SHA-256 digest of the master passphrase
(`CryptoManager.hashPassword`): a one-way, collision-free function, modelled
by an injective constructor. -/
structure HashDigest where
  ofPassword : String
deriving DecidableEq

def hashPassword (password : String) : HashDigest := ⟨password⟩

/-- In-memory session state of `PasswordManager` (its constructor fields,
minus the DOM). The session-timeout handle is a timer id. -/
structure ManagerState where
  masterPassword : Option String
  passwords : List PasswordRecord
  categories : List String
  sessionTimeout : Option Nat
  isLocked : Bool
deriving DecidableEq

/-- The seeded default category set. -/
def defaultCategories : List String :=
  ["Personal", "Work", "Banking", "Social Media", "Shopping", "Other"]

/-- Initial state built by `new PasswordManager()`. -/
def initialState : ManagerState :=
  { masterPassword := none, passwords := [], categories := defaultCategories,
    sessionTimeout := none, isLocked := true }

/-- The two `localStorage` keys used for persistence. -/
structure Storage where
  masterPasswordHash : Option HashDigest
  encryptedData : Option (List Nat)
deriving DecidableEq

/-- JavaScript string coercion applied by `TextEncoder` when
`this.masterPassword` is `null`. -/
def jsString : Option String → String
  | none => "null"
  | some s => s

/-- Model of `PasswordManager.saveData`: encrypt `{passwords, categories}`
under the in-memory master passphrase with a fresh salt and nonce, and
overwrite the single `encryptedData` slot. -/
def saveData (st : ManagerState) (sto : Storage) (salt iv : List Nat) : Storage :=
  { sto with
    encryptedData := some (encryptBytes
      (encodeStored { passwords := some st.passwords, categories := some st.categories })
      (strToBytes (jsString st.masterPassword)) salt iv) }

/-- Error taxonomy of the vault operations. -/
inductive VaultError where
  | weakPassword
  | authenticationFailed
deriving DecidableEq

/-- Model of `PasswordManager.setupMasterPassword`: reject passphrases
shorter than 8 characters before any crypto or storage work; otherwise
store the verifier hash, unlock, persist an initial blob and start the
session timer (`timerId`). -/
def setupMasterPassword (st : ManagerState) (sto : Storage) (password : String)
    (salt iv : List Nat) (timerId : Nat) : Except VaultError (ManagerState × Storage) :=
  if password.length < 8 then .error .weakPassword
  else
    let sto1 := { sto with masterPasswordHash := some (hashPassword password) }
    let st1 := { st with masterPassword := some password, isLocked := false }
    let sto2 := saveData st1 sto1 salt iv
    .ok ({ st1 with sessionTimeout := some timerId }, sto2)

/-- Model of `PasswordManager.login`: compare the verifier hash, and on
success decrypt the persisted blob (`loadData` is modelled separately). -/
def checkLogin (sto : Storage) (password : String) : Except VaultError Unit :=
  if sto.masterPasswordHash = some (hashPassword password) then .ok ()
  else .error .authenticationFailed

/-- Model of `PasswordManager.lock`: set the locked flag, null the master
passphrase, reset the record list and cancel the pending session timer.
The category list is not touched by the code. -/
def lock (st : ManagerState) : ManagerState :=
  { st with
      isLocked := true, masterPassword := none, passwords := [],
      sessionTimeout := none }

/-- Model of `PasswordManager.loadData`: if the persistence slot is absent,
leave the in-memory state alone; otherwise decrypt and replace the record
list (`data.passwords || []`) and the category list
(`data.categories || this.categories`). -/
def loadData (st : ManagerState) (sto : Storage) : Except CryptoError ManagerState :=
  match sto.encryptedData with
  | none => .ok st
  | some blob =>
    match decryptStored blob (strToBytes (jsString st.masterPassword)) with
    | .error e => .error e
    | .ok data =>
      .ok { st with passwords := data.passwords.getD [],
                    categories := data.categories.getD st.categories }

/-- Fields passed to `addPassword`; optional ones default via JavaScript
`||` (so an explicit empty string behaves like an absent field). -/
structure PasswordData where
  name : String
  website : Option String := none
  username : Option String := none
  password : String
  category : Option String := none
  notes : Option String := none
deriving DecidableEq

/-- JavaScript `passwordData.category || "Other"`. -/
def effCategory : Option String → String
  | none => "Other"
  | some c => if c = "" then "Other" else c

/-- Model of `PasswordManager.addPassword`: build the record with a
time-based id and creation timestamps, insert it at the front, persist,
and return it. -/
def addPassword (st : ManagerState) (sto : Storage) (pd : PasswordData)
    (now : Nat) (nowISO : String) (salt iv : List Nat) :
    ManagerState × Storage × PasswordRecord :=
  let record : PasswordRecord :=
    { id := toString now, name := pd.name, website := pd.website.getD "",
      username := pd.username.getD "", password := pd.password,
      category := effCategory pd.category, notes := pd.notes.getD "",
      createdDate := nowISO, lastModified := nowISO }
  let st' := { st with passwords := record :: st.passwords }
  (st', saveData st' sto salt iv, record)

/-- Partial update object passed to `updatePassword`; a `some` field is a
property present on the JavaScript `updates` object, which the spread
`{...record, ...updates}` lets override the stored one. -/
structure PasswordUpdates where
  id : Option String := none
  name : Option String := none
  website : Option String := none
  username : Option String := none
  password : Option String := none
  category : Option String := none
  notes : Option String := none
  createdDate : Option String := none
  lastModified : Option String := none
deriving DecidableEq

/-- The spread `{...record, ...updates, lastModified: now}`: present update
fields override, and `lastModified` is always set last. -/
def mergeUpdates (p : PasswordRecord) (u : PasswordUpdates) (nowISO : String) :
    PasswordRecord :=
  { id := u.id.getD p.id, name := u.name.getD p.name,
    website := u.website.getD p.website, username := u.username.getD p.username,
    password := u.password.getD p.password, category := u.category.getD p.category,
    notes := u.notes.getD p.notes, createdDate := u.createdDate.getD p.createdDate,
    lastModified := nowISO }

/-- Replace the first record whose id matches (`findIndex` + in-place
assignment). -/
def updateList : List PasswordRecord → String → PasswordUpdates → String →
    List PasswordRecord
  | [], _, _, _ => []
  | p :: rest, i, u, nowISO =>
    if p.id = i then mergeUpdates p u nowISO :: rest
    else p :: updateList rest i u nowISO

/-- Model of `PasswordManager.updatePassword`: if no record matches the id,
do nothing (no error, no persistence); otherwise merge the update into the
first match, bump `lastModified` and persist. -/
def updatePassword (st : ManagerState) (sto : Storage) (i : String)
    (u : PasswordUpdates) (nowISO : String) (salt iv : List Nat) :
    ManagerState × Storage :=
  if st.passwords.any (fun p => p.id = i) then
    let st' := { st with passwords := updateList st.passwords i u nowISO }
    (st', saveData st' sto salt iv)
  else (st, sto)

/-- Model of `PasswordManager.deletePassword`: filter the record out and
persist unconditionally. -/
def deletePassword (st : ManagerState) (sto : Storage) (i : String)
    (salt iv : List Nat) : ManagerState × Storage :=
  let st' := { st with passwords := st.passwords.filter (fun p => p.id ≠ i) }
  (st', saveData st' sto salt iv)

/-- Model of `PasswordManager.addCategory`: append the name if not already
present, then persist; otherwise do nothing. -/
def addCategory (st : ManagerState) (sto : Storage) (name : String)
    (salt iv : List Nat) : ManagerState × Storage :=
  if name ∈ st.categories then (st, sto)
  else
    let st' := { st with categories := st.categories ++ [name] }
    (st', saveData st' sto salt iv)

/-- Model of `PasswordManager.deleteCategory`: reassign every record in the
deleted category to `Other`, remove the name from the category list, and
persist. -/
def deleteCategory (st : ManagerState) (sto : Storage) (name : String)
    (salt iv : List Nat) : ManagerState × Storage :=
  let st' := { st with
    passwords := st.passwords.map fun p =>
      if p.category = name then { p with category := "Other" } else p,
    categories := st.categories.filter (fun c => c ≠ name) }
  (st', saveData st' sto salt iv)

/-- Lower-cased character list of a string (JavaScript `toLowerCase`). -/
def lowerChars (s : String) : List Char := s.data.map Char.toLower

def isPrefOf : List Char → List Char → Bool
  | [], _ => true
  | _ :: _, [] => false
  | a :: as, b :: bs => a = b && isPrefOf as bs

/-- Contiguous substring test (JavaScript `String.prototype.includes`). -/
def hasSub : List Char → List Char → Bool
  | [], needle => isPrefOf needle []
  | c :: t, needle => isPrefOf needle (c :: t) || hasSub t needle

/-- Case-insensitive query match over the four searched fields. -/
def queryMatches (q : String) (p : PasswordRecord) : Bool :=
  hasSub (lowerChars p.name) (lowerChars q) ||
  hasSub (lowerChars p.website) (lowerChars q) ||
  hasSub (lowerChars p.username) (lowerChars q) ||
  hasSub (lowerChars p.category) (lowerChars q)

/-- Model of `PasswordManager.searchPasswords(query, category = null)`:
category filtering is applied only when the filter is truthy (non-empty)
and not `"All"`; query filtering only when the query is truthy
(non-empty). -/
def searchPasswords (passwords : List PasswordRecord) (query : String)
    (category : Option String) : List PasswordRecord :=
  let results :=
    match category with
    | none => passwords
    | some c =>
      if c ≠ "" ∧ c ≠ "All" then passwords.filter (fun p => p.category = c)
      else passwords
  if query = "" then results
  else results.filter (queryMatches query)

theorem encryptBytes_eq (data password salt iv : List Nat) :
    encryptBytes data password salt iv =
      salt ++ (iv ++ (data ++ [gcmTag (deriveKey password salt) iv data,
        gcmTag (deriveKey password salt) iv data])) := by
  simp [encryptBytes, aesGcmEncrypt, List.append_assoc]

theorem decryptBytes_parts (W salt iv pt : List Nat) (x y : Nat)
    (hs : salt.length = 16) (hi : iv.length = 12) :
    decryptBytes (salt ++ (iv ++ (pt ++ [x, y]))) W =
      if x = gcmTag (deriveKey W salt) iv pt ∧ y = gcmTag (deriveKey W salt) iv pt
      then .ok pt else .error .decryptionFailed := by
  have h16 : (salt ++ (iv ++ (pt ++ [x, y]))).take 16 = salt := List.take_left' hs
  have hd16 : (salt ++ (iv ++ (pt ++ [x, y]))).drop 16 = iv ++ (pt ++ [x, y]) :=
    List.drop_left' hs
  have h12 : (iv ++ (pt ++ [x, y])).take 12 = iv := List.take_left' hi
  have h28 : (salt ++ (iv ++ (pt ++ [x, y]))).drop 28 = pt ++ [x, y] := by
    have h : (28 : Nat) = 16 + 12 := rfl
    rw [h, ← List.drop_drop, hd16, List.drop_left' hi]
  unfold decryptBytes
  simp only [h16, hd16, h12, h28, aesGcmDecrypt_pair]
  by_cases hc : x = gcmTag (deriveKey W salt) iv pt ∧ y = gcmTag (deriveKey W salt) iv pt
  · rw [if_pos hc, if_pos hc]
  · rw [if_neg hc, if_neg hc]

theorem set_ne_self {l : List Nat} {i b : Nat} (h : i < l.length)
    (hb : l[i]? ≠ some b) : l.set i b ≠ l := by
  intro he
  have hq := List.getElem?_set_self (l := l) (i := i) (a := b) h
  rw [he] at hq
  exact hb hq

/-- C1: for every JSON-serializable payload (represented by its serialized
byte sequence, and — for the persisted vault object — as a
`StoredData` value) and every passphrase, decrypting the blob produced by
`encrypt` with the same passphrase returns a payload equal to the
original. -/
theorem encrypt_decrypt_roundTrip (P : List Nat) (d : StoredData)
    (W salt iv : List Nat) (hs : salt.length = 16) (hi : iv.length = 12) :
    decryptBytes (encryptBytes P W salt iv) W = .ok P ∧
    decryptStored (encryptBytes (encodeStored d) W salt iv) W = .ok d :=
  ⟨decryptBytes_encryptBytes P W salt iv hs hi,
   decryptStored_encryptBytes d W salt iv hs hi⟩

/-- Witness for C1 at a concrete payload, passphrase, salt and nonce. -/
theorem encrypt_decrypt_roundTrip_witness :
    (List.replicate 16 0).length = 16 ∧ (List.replicate 12 0).length = 12 ∧
    (decryptBytes (encryptBytes [7, 8] [1] (List.replicate 16 0) (List.replicate 12 0)) [1] =
        .ok [7, 8] ∧
      decryptStored (encryptBytes (encodeStored ⟨none, none⟩) [1] (List.replicate 16 0)
        (List.replicate 12 0)) [1] = .ok ⟨none, none⟩) :=
  ⟨by decide, by decide,
   encrypt_decrypt_roundTrip [7, 8] ⟨none, none⟩ [1] (List.replicate 16 0)
     (List.replicate 12 0) (by decide) (by decide)⟩

/-- C2: decryption with a different passphrase fails with the decryption
error, and flipping any single byte of the produced
`salt ++ nonce ++ ciphertext` blob makes decryption fail with the
decryption error under every passphrase, including the correct one. -/
theorem decrypt_rejects_wrongPass_and_tampering
    (P W1 W2 Wx salt iv : List Nat) (i b : Nat)
    (hs : salt.length = 16) (hi : iv.length = 12) (hw : W2 ≠ W1)
    (hib : i < (encryptBytes P W1 salt iv).length)
    (hb : b ≠ (encryptBytes P W1 salt iv).get ⟨i, hib⟩) :
    decryptBytes (encryptBytes P W1 salt iv) W2 = .error .decryptionFailed ∧
    decryptBytes ((encryptBytes P W1 salt iv).set i b) Wx = .error .decryptionFailed := by
  have henc := encryptBytes_eq P W1 salt iv
  constructor
  · rw [henc, decryptBytes_parts W2 salt iv P _ _ hs hi, if_neg]
    rintro ⟨h1, -⟩
    obtain ⟨hk, -, -⟩ := gcmTag_inj h1
    exact hw (congrArg Prod.fst hk).symm
  · have hlen : (encryptBytes P W1 salt iv).length = 30 + P.length := by
      simp [encryptBytes, aesGcmEncrypt, hs, hi]; omega
    have hilen : i < 30 + P.length := hlen ▸ hib
    have hbv : (encryptBytes P W1 salt iv)[i]? ≠ some b := by
      rw [List.getElem?_eq_getElem hib]
      exact fun h => hb (Option.some.inj h).symm
    rw [henc] at hbv
    by_cases h1 : i < 16
    · have hset : (salt ++ (iv ++ (P ++ [gcmTag (deriveKey W1 salt) iv P,
          gcmTag (deriveKey W1 salt) iv P]))).set i b =
          (salt.set i b) ++ (iv ++ (P ++ [gcmTag (deriveKey W1 salt) iv P,
            gcmTag (deriveKey W1 salt) iv P])) :=
        List.set_append_left i b (by omega)
      rw [List.getElem?_append_left (by omega)] at hbv
      rw [henc, hset, decryptBytes_parts Wx (salt.set i b) iv P _ _ (by simp [hs]) hi,
        if_neg]
      rintro ⟨h2, -⟩
      obtain ⟨hk, -, -⟩ := gcmTag_inj h2
      exact set_ne_self (by omega) hbv (congrArg Prod.snd hk).symm
    · by_cases h2 : i < 28
      · have hset : (salt ++ (iv ++ (P ++ [gcmTag (deriveKey W1 salt) iv P,
            gcmTag (deriveKey W1 salt) iv P]))).set i b =
            salt ++ ((iv ++ (P ++ [gcmTag (deriveKey W1 salt) iv P,
              gcmTag (deriveKey W1 salt) iv P])).set (i - salt.length) b) :=
          List.set_append_right i b (by omega)
        rw [hs] at hset
        have hset2 : (iv ++ (P ++ [gcmTag (deriveKey W1 salt) iv P,
            gcmTag (deriveKey W1 salt) iv P])).set (i - 16) b =
            (iv.set (i - 16) b) ++ (P ++ [gcmTag (deriveKey W1 salt) iv P,
              gcmTag (deriveKey W1 salt) iv P]) :=
          List.set_append_left (i - 16) b (by omega)
        rw [List.getElem?_append_right (by omega), hs,
          List.getElem?_append_left (by omega)] at hbv
        rw [henc, hset, hset2,
          decryptBytes_parts Wx salt (iv.set (i - 16) b) P _ _ hs (by simp [hi]), if_neg]
        rintro ⟨h3, -⟩
        obtain ⟨-, hivv, -⟩ := gcmTag_inj h3
        exact set_ne_self (by omega) hbv hivv.symm
      · have hset : (salt ++ (iv ++ (P ++ [gcmTag (deriveKey W1 salt) iv P,
            gcmTag (deriveKey W1 salt) iv P]))).set i b =
            salt ++ ((iv ++ (P ++ [gcmTag (deriveKey W1 salt) iv P,
              gcmTag (deriveKey W1 salt) iv P])).set (i - salt.length) b) :=
          List.set_append_right i b (by omega)
        rw [hs] at hset
        have hset2 : (iv ++ (P ++ [gcmTag (deriveKey W1 salt) iv P,
            gcmTag (deriveKey W1 salt) iv P])).set (i - 16) b =
            iv ++ ((P ++ [gcmTag (deriveKey W1 salt) iv P,
              gcmTag (deriveKey W1 salt) iv P]).set (i - 16 - iv.length) b) :=
          List.set_append_right (i - 16) b (by omega)
        rw [hi, (by omega : i - 16 - 12 = i - 28)] at hset2
        rw [List.getElem?_append_right (by omega), hs,
          List.getElem?_append_right (by omega), hi,
          (by omega : i - 16 - 12 = i - 28)] at hbv
        by_cases h3 : i - 28 < P.length
        · have hset3 : (P ++ [gcmTag (deriveKey W1 salt) iv P,
              gcmTag (deriveKey W1 salt) iv P]).set (i - 28) b =
              (P.set (i - 28) b) ++ [gcmTag (deriveKey W1 salt) iv P,
                gcmTag (deriveKey W1 salt) iv P] :=
            List.set_append_left (i - 28) b h3
          rw [List.getElem?_append_left h3] at hbv
          rw [henc, hset, hset2, hset3,
            decryptBytes_parts Wx salt iv (P.set (i - 28) b) _ _ hs hi, if_neg]
          rintro ⟨h4, -⟩
          obtain ⟨-, -, hptv⟩ := gcmTag_inj h4
          exact set_ne_self h3 hbv hptv.symm
        · have hset3 : (P ++ [gcmTag (deriveKey W1 salt) iv P,
              gcmTag (deriveKey W1 salt) iv P]).set (i - 28) b =
              P ++ ([gcmTag (deriveKey W1 salt) iv P,
                gcmTag (deriveKey W1 salt) iv P].set (i - 28 - P.length) b) :=
            List.set_append_right (i - 28) b (by omega)
          rw [List.getElem?_append_right (by omega)] at hbv
          by_cases h4 : i - 28 - P.length = 0
          · rw [h4] at hset3
            rw [h4, (by simp : ([gcmTag (deriveKey W1 salt) iv P,
                gcmTag (deriveKey W1 salt) iv P] : List Nat)[0]? =
                some (gcmTag (deriveKey W1 salt) iv P))] at hbv
            rw [henc, hset, hset2, hset3, List.set_cons_zero,
              decryptBytes_parts Wx salt iv P _ _ hs hi, if_neg]
            rintro ⟨h5, h6⟩
            exact hbv (congrArg some (h6.trans h5.symm))
          · have h5 : i - 28 - P.length = 1 := by omega
            rw [h5] at hset3
            rw [h5, (by simp : ([gcmTag (deriveKey W1 salt) iv P,
                gcmTag (deriveKey W1 salt) iv P] : List Nat)[1]? =
                some (gcmTag (deriveKey W1 salt) iv P))] at hbv
            rw [henc, hset, hset2, hset3,
              (by simp [List.set] : ([gcmTag (deriveKey W1 salt) iv P,
                gcmTag (deriveKey W1 salt) iv P] : List Nat).set 1 b =
                [gcmTag (deriveKey W1 salt) iv P, b]),
              decryptBytes_parts Wx salt iv P _ _ hs hi, if_neg]
            rintro ⟨h6, h7⟩
            exact hbv (congrArg some (h6.trans h7.symm))

/-- Witness for C2: concrete payload, two distinct passphrases, and a flip
of the first salt byte checked under the original passphrase. -/
theorem decrypt_rejects_witness :
    (List.replicate 16 0).length = 16 ∧ (List.replicate 12 0).length = 12 ∧
    ([2] : List Nat) ≠ [1] ∧
    (0 : Nat) < (encryptBytes [7] [1] (List.replicate 16 0) (List.replicate 12 0)).length ∧
    (decryptBytes (encryptBytes [7] [1] (List.replicate 16 0) (List.replicate 12 0)) [2] =
        .error .decryptionFailed ∧
      decryptBytes ((encryptBytes [7] [1] (List.replicate 16 0)
        (List.replicate 12 0)).set 0 5) [1] = .error .decryptionFailed) :=
  ⟨by decide, by decide, by decide, by decide,
   decrypt_rejects_wrongPass_and_tampering [7] [1] [2] [1]
     (List.replicate 16 0) (List.replicate 12 0) 0 5 (by decide) (by decide)
     (by decide) (by decide) (by decide)⟩

/-- Data-model invariant from the spec: the category of every record names an entry
of the current category set. -/
def categoriesInv (st : ManagerState) : Prop :=
  ∀ p ∈ st.passwords, p.category ∈ st.categories

/-- Sample record used for concrete instances. -/
def exRecord (cat : String) : PasswordRecord :=
  { id := "100", name := "Example", website := "", username := "",
    password := "p", category := cat, notes := "", createdDate := "D",
    lastModified := "D" }

/-- Sample unlocked state holding one record in the given category. -/
def exState (cat : String) : ManagerState :=
  { masterPassword := some "pw123456", passwords := [exRecord cat],
    categories := defaultCategories, sessionTimeout := none, isLocked := false }

def emptyStorage : Storage :=
  { masterPasswordHash := none, encryptedData := none }

theorem mem_updateList {q : PasswordRecord} {ps : List PasswordRecord}
    {i : String} {u : PasswordUpdates} {nowISO : String}
    (h : q ∈ updateList ps i u nowISO) :
    q ∈ ps ∨ ∃ p ∈ ps, q = mergeUpdates p u nowISO := by
  induction ps with
  | nil => simp [updateList] at h
  | cons p rest ih =>
    rw [updateList] at h
    by_cases hp : p.id = i
    · rw [if_pos hp] at h
      rcases List.mem_cons.mp h with h1 | h1
      · exact Or.inr ⟨p, List.mem_cons_self _ _, h1⟩
      · exact Or.inl (List.mem_cons_of_mem _ h1)
    · rw [if_neg hp] at h
      rcases List.mem_cons.mp h with h1 | h1
      · exact Or.inl (h1 ▸ List.mem_cons_self _ _)
      · rcases ih h1 with h2 | ⟨p', hp', he⟩
        · exact Or.inl (List.mem_cons_of_mem _ h2)
        · exact Or.inr ⟨p', List.mem_cons_of_mem _ hp', he⟩

/-- C3 as stated fails on the code: `deleteCategory("Other")` removes the
fallback category while reassigning its records to it, leaving a record
whose category is no longer in the category set (the code has no guard for
the fallback category, and `addPassword` never validates membership). -/
theorem categoryInvariant_counterexample :
    ¬ categoriesInv (deleteCategory (exState "Other") emptyStorage "Other" [] []).1 := by
  intro h
  have hm : exRecord "Other" ∈
      (deleteCategory (exState "Other") emptyStorage "Other" [] []).1.passwords := by
    decide
  exact absurd (h _ hm) (by decide)

/-- C3 amended: the category-membership invariant is preserved by every
persisting vault operation under the side conditions the code actually
relies on: the effective category of an added record is in the set, an
category carried by an update (when present) is in the set, and a deleted category is
not the fallback while the fallback is present. `deleteRecord` and
`addCategory` preserve it unconditionally. -/
theorem categoryInvariant_preserved (st : ManagerState) (sto : Storage)
    (pd : PasswordData) (u : PasswordUpdates) (i name : String)
    (now : Nat) (nowISO : String) (salt iv : List Nat)
    (hInv : categoriesInv st) :
    (effCategory pd.category ∈ st.categories →
      categoriesInv (addPassword st sto pd now nowISO salt iv).1) ∧
    ((∀ c, u.category = some c → c ∈ st.categories) →
      categoriesInv (updatePassword st sto i u nowISO salt iv).1) ∧
    categoriesInv (deletePassword st sto i salt iv).1 ∧
    categoriesInv (addCategory st sto name salt iv).1 ∧
    (name ≠ "Other" → "Other" ∈ st.categories →
      categoriesInv (deleteCategory st sto name salt iv).1) := by
  refine ⟨?_, ?_, ?_, ?_, ?_⟩
  · intro hc q hq
    rcases List.mem_cons.mp hq with h1 | h1
    · rw [h1]; exact hc
    · exact hInv q h1
  · intro hu q hq
    by_cases hf : (st.passwords.any fun p => p.id = i) = true
    · rw [updatePassword, if_pos hf] at hq ⊢
      rcases mem_updateList hq with h1 | ⟨p', hp', he⟩
      · exact hInv q h1
      · rw [he]
        show (u.category.getD p'.category) ∈ st.categories
        cases hcc : u.category with
        | none => exact hInv p' hp'
        | some c => exact hu c hcc
    · rw [updatePassword, if_neg hf] at hq ⊢
      exact hInv q hq
  · intro q hq
    exact hInv q (List.mem_of_mem_filter hq)
  · intro q hq
    by_cases hn : name ∈ st.categories
    · rw [addCategory, if_pos hn] at hq ⊢
      exact hInv q hq
    · rw [addCategory, if_neg hn] at hq ⊢
      exact List.mem_append_left _ (hInv q hq)
  · intro hne hOther q hq
    rcases List.mem_map.mp hq with ⟨p, hp, he⟩
    by_cases hcat : p.category = name
    · rw [if_pos hcat] at he
      rw [← he]
      exact List.mem_filter.mpr ⟨hOther, by simp [Ne.symm hne]⟩
    · rw [if_neg hcat] at he
      rw [← he]
      exact List.mem_filter.mpr ⟨hInv p hp, by simp [hcat]⟩

/-- Witness for the amended C3: deleting a non-fallback category on a
concrete valid state preserves the invariant. -/
theorem categoryInvariant_preserved_witness :
    categoriesInv (deleteCategory (exState "Banking") emptyStorage "Work" [] []).1 :=
  (categoryInvariant_preserved (exState "Banking") emptyStorage
      { name := "n", password := "p" } {} "100" "Work" 5 "T" [] []
      (by intro p hp; rw [List.mem_singleton.mp hp]; decide)).2.2.2.2
    (by decide) (by decide)

/-- C4: after `deleteCategory(C)`, a record that was in category C now
carries the fallback category `Other`, and C is absent from the category
set. -/
theorem deleteCategory_fallback (st : ManagerState) (sto : Storage) (name : String)
    (salt iv : List Nat) (p : PasswordRecord) (hp : p ∈ st.passwords)
    (hc : p.category = name) :
    ({ p with category := "Other" } : PasswordRecord) ∈
      (deleteCategory st sto name salt iv).1.passwords ∧
    name ∉ (deleteCategory st sto name salt iv).1.categories := by
  refine ⟨List.mem_map.mpr ⟨p, hp, ?_⟩, ?_⟩
  · rw [if_pos hc]
  · intro hmem
    have h2 := (List.mem_filter.mp hmem).2
    simp at h2

/-- Witness for C4 at a concrete state and category. -/
theorem deleteCategory_fallback_witness :
    ({ exRecord "Work" with category := "Other" } : PasswordRecord) ∈
      (deleteCategory (exState "Work") emptyStorage "Work" [] []).1.passwords ∧
    "Work" ∉ (deleteCategory (exState "Work") emptyStorage "Work" [] []).1.categories :=
  deleteCategory_fallback (exState "Work") emptyStorage "Work" [] [] (exRecord "Work")
    (by decide) (by decide)

/-- Sample unlocked state with a user-added category and a pending timer. -/
def exStateCustom : ManagerState :=
  { masterPassword := some "pw123456", passwords := [exRecord "Vendors"],
    categories := defaultCategories ++ ["Vendors"], sessionTimeout := some 1,
    isLocked := false }

/-- C5 as stated fails on the code: `lock()` leaves the in-memory category
set fully intact (the code resets only `passwords`, `masterPassword` and
the timer), so the `CategorySet` half of the Vault is not discarded. -/
theorem lock_retains_categories_counterexample :
    (lock exStateCustom).categories = exStateCustom.categories ∧
    "Vendors" ∈ (lock exStateCustom).categories := by
  exact ⟨rfl, by decide⟩

/-- C5 amended: from the Unlocked state, `lock()` discards the record list
and the stored master passphrase, cancels the pending session-timeout
timer and leaves the session Locked — but retains the in-memory category
set. -/
theorem lock_clears_session (st : ManagerState) (_h : st.isLocked = false) :
    lock st = { masterPassword := none, passwords := [],
                categories := st.categories, sessionTimeout := none,
                isLocked := true } := rfl

/-- Witness for the amended C5 at a concrete unlocked state. -/
theorem lock_clears_session_witness :
    lock exStateCustom =
      { masterPassword := none, passwords := [],
        categories := defaultCategories ++ ["Vendors"], sessionTimeout := none,
        isLocked := true } :=
  lock_clears_session exStateCustom rfl

/-- C6 as stated fails on the code: the spread `{...record, ...updates}`
lets an `updates` object that carries an `id` property overwrite the
id of the record. -/
theorem updateRecord_id_counterexample :
    ((updatePassword (exState "Banking") emptyStorage "100"
        { id := some "evil" } "T2" [] []).1.passwords.map PasswordRecord.id) ≠
      (exState "Banking").passwords.map PasswordRecord.id := by
  decide

theorem updateList_map_frame (ps : List PasswordRecord) (i : String)
    (u : PasswordUpdates) (nowISO : String)
    (hid : u.id = none) (hcd : u.createdDate = none) :
    (updateList ps i u nowISO).map (fun p => (p.id, p.createdDate)) =
      ps.map (fun p => (p.id, p.createdDate)) := by
  induction ps with
  | nil => rfl
  | cons p rest ih =>
    rw [updateList]
    by_cases hp : p.id = i
    · rw [if_pos hp]
      simp [mergeUpdates, hid, hcd]
    · rw [if_neg hp]
      simp [ih]

theorem updateList_lastModified (ps : List PasswordRecord) (i : String)
    (u : PasswordUpdates) (nowISO : String)
    (hnd : (ps.map PasswordRecord.id).Nodup) :
    ∀ q ∈ updateList ps i u nowISO, q.id ≠ i ∨ q.lastModified = nowISO := by
  induction ps with
  | nil => intro q hq; simp [updateList] at hq
  | cons p rest ih =>
    intro q hq
    rw [updateList] at hq
    by_cases hp : p.id = i
    · rw [if_pos hp] at hq
      rcases List.mem_cons.mp hq with h1 | h1
      · exact Or.inr (by rw [h1]; rfl)
      · refine Or.inl ?_
        intro hqi
        have h2 : (p.id :: rest.map PasswordRecord.id).Nodup := by simpa using hnd
        exact (List.nodup_cons.mp h2).1
          (by rw [hp, ← hqi]; exact List.mem_map_of_mem _ h1)
    · rw [if_neg hp] at hq
      rcases List.mem_cons.mp hq with h1 | h1
      · exact Or.inl (by rw [h1]; exact hp)
      · have h2 : (rest.map PasswordRecord.id).Nodup :=
          (List.nodup_cons.mp (by simpa using hnd)).2
        exact ih h2 q h1

/-- C6 amended: provided the partial-fields argument carries no `id` and no
`createdDate` property, `updateRecord` leaves the `id` and
`createdDate` unchanged, and (when record ids are unique) the record
matching the updated id has its `lastModified` set to the current time. -/
theorem updateRecord_immutable_fields (st : ManagerState) (sto : Storage)
    (i : String) (u : PasswordUpdates) (nowISO : String) (salt iv : List Nat)
    (hid : u.id = none) (hcd : u.createdDate = none)
    (hnd : (st.passwords.map PasswordRecord.id).Nodup) :
    ((updatePassword st sto i u nowISO salt iv).1.passwords.map
        (fun p => (p.id, p.createdDate)) =
      st.passwords.map (fun p => (p.id, p.createdDate))) ∧
    (∀ q ∈ (updatePassword st sto i u nowISO salt iv).1.passwords,
      q.id = i → q.lastModified = nowISO) := by
  by_cases hf : (st.passwords.any fun p => p.id = i) = true
  · rw [updatePassword, if_pos hf]
    refine ⟨updateList_map_frame st.passwords i u nowISO hid hcd, ?_⟩
    intro q hq hqi
    rcases updateList_lastModified st.passwords i u nowISO hnd q hq with h | h
    · exact absurd hqi h
    · exact h
  · rw [updatePassword, if_neg hf]
    refine ⟨rfl, ?_⟩
    intro q hq hqi
    have hf' : (st.passwords.any fun p => p.id = i) = false :=
      Bool.eq_false_iff.mpr hf
    rw [List.any_eq_false] at hf'
    have := hf' q hq
    simp only [decide_eq_true_eq] at this
    exact absurd hqi this

/-- Witness for the amended C6: a concrete update that changes only `name`
preserves id and creation date and bumps `lastModified`. -/
theorem updateRecord_immutable_fields_witness :
    ((updatePassword (exState "Banking") emptyStorage "100"
        { name := some "New" } "T2" [] []).1.passwords.map
          (fun p => (p.id, p.createdDate)) =
      (exState "Banking").passwords.map (fun p => (p.id, p.createdDate))) ∧
    (mergeUpdates (exRecord "Banking") { name := some "New" } "T2").lastModified =
      "T2" :=
  ⟨(updateRecord_immutable_fields (exState "Banking") emptyStorage "100"
      { name := some "New" } "T2" [] [] rfl rfl (by decide)).1,
   (updateRecord_immutable_fields (exState "Banking") emptyStorage "100"
      { name := some "New" } "T2" [] [] rfl rfl (by decide)).2
     (mergeUpdates (exRecord "Banking") { name := some "New" } "T2")
     (by decide) (by decide)⟩

/-- C7: `setupMasterPassword` with a passphrase shorter than 8 characters
fails with the weak-password error before any crypto or storage work, so no
verifier hash or blob is persisted. -/
theorem setup_rejects_short (st : ManagerState) (sto : Storage)
    (password : String) (salt iv : List Nat) (timerId : Nat)
    (h : password.length < 8) :
    setupMasterPassword st sto password salt iv timerId = .error .weakPassword := by
  rw [setupMasterPassword, if_pos h]

/-- Witness for C7 at the concrete passphrase `"short"`. -/
theorem setup_rejects_short_witness :
    setupMasterPassword initialState emptyStorage "short" [] [] 0 =
      .error .weakPassword :=
  setup_rejects_short initialState emptyStorage "short" [] [] 0 (by decide)

/-- Search predicate of the claim, read literally from the spec: category
filtering is disabled only for `"All"` or an absent filter. -/
def claimCategoryOk (c : Option String) (p : PasswordRecord) : Bool :=
  match c with
  | none => true
  | some cf => if cf = "All" then true else decide (p.category = cf)

def claimSearch (ps : List PasswordRecord) (q : String) (c : Option String) :
    List PasswordRecord :=
  ps.filter fun p => queryMatches q p && claimCategoryOk c p

/-- The amended search predicate: category filtering is additionally
disabled for the empty-string filter (a falsy value in JavaScript). -/
def amendedCategoryOk (c : Option String) (p : PasswordRecord) : Bool :=
  match c with
  | none => true
  | some cf => if cf = "" ∨ cf = "All" then true else decide (p.category = cf)

/-- C8 as stated fails on the code: an empty-string category filter is
falsy, so the code skips category filtering entirely, while the claim
demands restriction to the (empty) category. -/
theorem search_claim_counterexample :
    searchPasswords [exRecord "Banking"] "" (some "") ≠
      claimSearch [exRecord "Banking"] "" (some "") := by
  decide

theorem hasSub_nil (hay : List Char) : hasSub hay [] = true := by
  cases hay <;> rfl

theorem queryMatches_nil (p : PasswordRecord) : queryMatches "" p = true := by
  have h0 : lowerChars "" = [] := rfl
  simp [queryMatches, h0, hasSub_nil]

/-- C8 amended: `search` returns exactly the records matching the
case-insensitive substring query on name/website/username/category,
restricted to the category filter unless it is `"All"`, absent, or the
empty string; being a single `filter` of the record list, the result
preserves the record order of the vault, and the operation reads the list
without modifying any state. -/
theorem searchPasswords_spec (ps : List PasswordRecord) (q : String)
    (c : Option String) :
    searchPasswords ps q c =
      ps.filter fun p => queryMatches q p && amendedCategoryOk c p := by
  unfold searchPasswords
  cases c with
  | none =>
    dsimp only
    by_cases hq : q = ""
    · subst hq
      rw [if_pos rfl]
      symm
      rw [List.filter_eq_self]
      intro p hp
      simp [queryMatches_nil, amendedCategoryOk]
    · rw [if_neg hq]
      apply List.filter_congr
      intro p hp
      simp [amendedCategoryOk]
  | some cf =>
    dsimp only
    by_cases hcf : cf ≠ "" ∧ cf ≠ "All"
    · rw [if_pos hcf]
      have hok : ∀ p : PasswordRecord,
          amendedCategoryOk (some cf) p = decide (p.category = cf) := by
        intro p
        simp only [amendedCategoryOk]
        rw [if_neg (fun h => h.elim hcf.1 hcf.2)]
      by_cases hq : q = ""
      · subst hq
        rw [if_pos rfl]
        apply List.filter_congr
        intro p hp
        rw [hok p]
        simp [queryMatches_nil]
      · rw [if_neg hq, List.filter_filter]
        apply List.filter_congr
        intro p hp
        rw [hok p]
    · rw [if_neg hcf]
      have hor : cf = "" ∨ cf = "All" := by
        by_cases h1 : cf = ""
        · exact Or.inl h1
        · by_cases h2 : cf = "All"
          · exact Or.inr h2
          · exact absurd ⟨h1, h2⟩ hcf
      have hok : ∀ p : PasswordRecord, amendedCategoryOk (some cf) p = true := by
        intro p
        simp only [amendedCategoryOk]
        rw [if_pos hor]
      by_cases hq : q = ""
      · subst hq
        rw [if_pos rfl]
        symm
        rw [List.filter_eq_self]
        intro p hp
        simp [queryMatches_nil, hok]
      · rw [if_neg hq]
        apply List.filter_congr
        intro p hp
        simp [hok]

/-- C9: for an id not present in the record list, `updateRecord` is a
silent no-op on state and storage and `deleteRecord` leaves the record
list unchanged; `deleteRecord` persists a blob unconditionally, and running
it twice in a row with the same entropy equals running it once. -/
theorem missing_id_noops (st : ManagerState) (sto : Storage) (i : String)
    (u : PasswordUpdates) (nowISO : String) (salt iv : List Nat) :
    ((∀ p ∈ st.passwords, p.id ≠ i) →
      updatePassword st sto i u nowISO salt iv = (st, sto) ∧
      (deletePassword st sto i salt iv).1.passwords = st.passwords) ∧
    (deletePassword st sto i salt iv).2.encryptedData =
      some (encryptBytes
        (encodeStored
          { passwords := some (deletePassword st sto i salt iv).1.passwords,
            categories := some st.categories })
        (strToBytes (jsString st.masterPassword)) salt iv) ∧
    deletePassword (deletePassword st sto i salt iv).1
        (deletePassword st sto i salt iv).2 i salt iv =
      deletePassword st sto i salt iv := by
  refine ⟨?_, rfl, ?_⟩
  · intro h
    constructor
    · have hf : (st.passwords.any fun p => p.id = i) = false := by
        rw [List.any_eq_false]
        intro p hp
        simp only [decide_eq_true_eq]
        exact h p hp
      rw [updatePassword, if_neg (by simp [hf])]
    · show st.passwords.filter (fun p => p.id ≠ i) = st.passwords
      rw [List.filter_eq_self]
      intro p hp
      simpa using h p hp
  · have hff : ((st.passwords.filter fun p => p.id ≠ i).filter
        fun p => p.id ≠ i) = st.passwords.filter fun p => p.id ≠ i := by
      rw [List.filter_filter]
      apply List.filter_congr
      intro p hp
      exact Bool.and_self _
    simp only [deletePassword, saveData]
    rw [hff]

/-- Witness for C9 at a concrete state and an id that matches no record. -/
theorem missing_id_noops_witness :
    (updatePassword (exState "Banking") emptyStorage "999" {} "T" [] [] =
        (exState "Banking", emptyStorage) ∧
      (deletePassword (exState "Banking") emptyStorage "999" [] []).1.passwords =
        (exState "Banking").passwords) ∧
    (deletePassword (exState "Banking") emptyStorage "999" [] []).2.encryptedData =
      some (encryptBytes
        (encodeStored
          { passwords :=
              some (deletePassword (exState "Banking") emptyStorage "999"
                [] []).1.passwords,
            categories := some (exState "Banking").categories })
        (strToBytes (jsString (exState "Banking").masterPassword)) [] []) ∧
    deletePassword (deletePassword (exState "Banking") emptyStorage "999" [] []).1
        (deletePassword (exState "Banking") emptyStorage "999" [] []).2 "999" [] [] =
      deletePassword (exState "Banking") emptyStorage "999" [] [] :=
  ⟨(missing_id_noops (exState "Banking") emptyStorage "999" {} "T" [] []).1
      (by decide),
   (missing_id_noops (exState "Banking") emptyStorage "999" {} "T" [] []).2.1,
   (missing_id_noops (exState "Banking") emptyStorage "999" {} "T" [] []).2.2⟩

/-- C10: when `loadData` decrypts a persisted payload successfully, a
missing `passwords` field yields the empty record list and a missing
`categories` field leaves the in-memory category set unchanged. -/
theorem loadData_defaults (st : ManagerState) (sto : Storage)
    (blob : List Nat) (data : StoredData)
    (h1 : sto.encryptedData = some blob)
    (h2 : decryptStored blob (strToBytes (jsString st.masterPassword)) = .ok data) :
    loadData st sto =
      .ok { st with passwords := data.passwords.getD [],
                    categories := data.categories.getD st.categories } ∧
    (data.passwords = none → data.passwords.getD [] = ([] : List PasswordRecord)) ∧
    (data.categories = none → data.categories.getD st.categories = st.categories) := by
  refine ⟨?_, fun h => by rw [h]; rfl, fun h => by rw [h]; rfl⟩
  rw [loadData, h1]
  dsimp only
  rw [h2]

/-- Concrete blob that decrypts to a payload with both fields absent. -/
def exBlob : List Nat :=
  encryptBytes (encodeStored { passwords := none, categories := none })
    (strToBytes "pw123456") (List.replicate 16 0) (List.replicate 12 0)

def exStorageBlob : Storage :=
  { masterPasswordHash := none, encryptedData := some exBlob }

/-- Witness for C10: reloading the concrete field-less payload resets the
record list and keeps the previous categories. -/
theorem loadData_defaults_witness :
    loadData (exState "Banking") exStorageBlob =
      .ok { masterPassword := some "pw123456", passwords := [],
            categories := defaultCategories, sessionTimeout := none,
            isLocked := false } :=
  (loadData_defaults (exState "Banking") exStorageBlob exBlob
      { passwords := none, categories := none } rfl
      (decryptStored_encryptBytes { passwords := none, categories := none }
        (strToBytes "pw123456") (List.replicate 16 0) (List.replicate 12 0)
        (by decide) (by decide))).1
